import Mathlib

/-!
Verification of the cache engine, cache-aside fetcher and request dispatcher
of the ts_social repository (src/cache.ts, src/utils.ts, src/websocket.ts,
src/params.ts), shallowly embedded in Lean 4.

The JavaScript `Map` that backs `LRUCache` preserves insertion order; we
model it as an association list whose head is the oldest (least recently
inserted) entry and whose last element is the newest.  `Map.delete`
followed by `Map.set` therefore appends at the end, and
`map.keys().next().value` is the first key of the list.
-/

section CacheModel

variable {K V : Type} [DecidableEq K]

/-- Keys of an association list, in order. -/
def keysOf (l : List (K × V)) : List K := l.map Prod.fst

/-- `Map.get(k)` on an insertion-ordered map: the value of the first
(in a well-formed map, the only) entry whose key is `k`. -/
def mapGet (l : List (K × V)) (k : K) : Option V :=
  (l.find? (fun p => decide (p.1 = k))).map Prod.snd

/-- `Map.has(k)`. -/
def mapHas (l : List (K × V)) (k : K) : Bool :=
  (mapGet l k).isSome

/-- `Map.delete(k)`: removes the entry keyed `k`. -/
def mapDelete (l : List (K × V)) (k : K) : List (K × V) :=
  l.filter (fun p => decide (p.1 ≠ k))

/-- `updateOne({key}, {$set: value}, {upsert: true})` of the fallback store:
replace the value when the key is present, append a fresh document
otherwise. -/
def mapUpsert (l : List (K × V)) (k : K) (v : V) : List (K × V) :=
  if mapHas l k then
    l.map (fun p => if p.1 = k then (k, v) else p)
  else
    l ++ [(k, v)]

/-- State of `MongoCacheFallbackClient` (src/cache.ts).  The TypeScript
`state` is `0 | 1 | 2`; the connected state is `1`.  `docs` is the backing
collection, one document per key. -/
structure MongoCacheFallbackClient (K V : Type) where
  state : Nat
  docs : List (K × V)
deriving DecidableEq

/-- `MongoCacheFallbackClient.get`: when not connected (state ≠ 1) it logs a
warning and returns `null`; backend errors are also caught and mapped to
`null` (we model the non-erroring backend; the disconnected path is the one
the claims exercise). -/
def MongoCacheFallbackClient.get (c : MongoCacheFallbackClient K V) (key : K) : Option V :=
  if c.state ≠ 1 then none
  else mapGet c.docs key

/-- `MongoCacheFallbackClient.put`: when not connected it is a no-op;
otherwise it upserts the document for `key`.  Backend errors are caught and
logged, never propagated. -/
def MongoCacheFallbackClient.put (c : MongoCacheFallbackClient K V) (key : K) (value : V) :
    MongoCacheFallbackClient K V :=
  if c.state ≠ 1 then c
  else { c with docs := mapUpsert c.docs key value }

/-- State of `LRUCache` (src/cache.ts): a capacity, the insertion-ordered
in-memory map, and the fallback client. -/
structure LRUCache (K V : Type) where
  capacity : Nat
  cache : List (K × V)
  fallbackClient : MongoCacheFallbackClient K V
deriving DecidableEq

/-- `LRUCache.put` (src/cache.ts lines 43-63): if the key is present delete
it; else if `size >= capacity` evict the least recently used entry (the
first of the map), saving it to the fallback store (failure there is caught
and only logged); finally `set` the new pair, which lands at the end of the
insertion order. -/
def LRUCache.put (s : LRUCache K V) (key : K) (value : V) : LRUCache K V :=
  let s1 :=
    if mapHas s.cache key then
      { s with cache := mapDelete s.cache key }
    else if s.capacity ≤ s.cache.length then
      match s.cache with
      | [] => s
      | (lruKey, lruValue) :: rest =>
        { s with cache := rest,
                 fallbackClient := s.fallbackClient.put lruKey lruValue }
    else s
  { s1 with cache := s1.cache ++ [(key, value)] }

/-- `LRUCache.get` (src/cache.ts lines 22-40): on a hit, promote the key to
most recently used (delete + set moves it to the end) and return the value;
on a miss, consult the fallback client; if it has a document, re-insert the
value through `put` and return it; otherwise return `undefined`. -/
def LRUCache.get (s : LRUCache K V) (key : K) : Option V × LRUCache K V :=
  match mapGet s.cache key with
  | some value =>
    (some value, { s with cache := mapDelete s.cache key ++ [(key, value)] })
  | none =>
    match s.fallbackClient.get key with
    | some value => (some value, s.put key value)
    | none => (none, s)

/-- `LRUCache.size`. -/
def LRUCache.size (s : LRUCache K V) : Nat := s.cache.length

/-- `LRUCache.has`. -/
def LRUCache.has (s : LRUCache K V) (key : K) : Bool := mapHas s.cache key

/-- A sequence of `put` operations executed in order. -/
def applyPuts (s : LRUCache K V) (ops : List (K × V)) : LRUCache K V :=
  ops.foldl (fun t p => t.put p.1 p.2) s

end CacheModel

section MapLemmas

variable {K V : Type} [DecidableEq K]

theorem mapGet_eq_none_iff {l : List (K × V)} {k : K} :
    mapGet l k = none ↔ ∀ p ∈ l, p.1 ≠ k := by
  simp [mapGet, List.find?_eq_none]

theorem mapHas_false_iff {l : List (K × V)} {k : K} :
    mapHas l k = false ↔ ∀ p ∈ l, p.1 ≠ k := by
  rw [← mapGet_eq_none_iff]
  unfold mapHas
  cases mapGet l k <;> simp

theorem mapGet_append_of_forall_ne {l₁ l₂ : List (K × V)} {k : K}
    (h : ∀ p ∈ l₁, p.1 ≠ k) :
    mapGet (l₁ ++ l₂) k = mapGet l₂ k := by
  unfold mapGet
  rw [List.find?_append]
  have : l₁.find? (fun p => decide (p.1 = k)) = none := by
    rw [List.find?_eq_none]
    intro p hp
    simpa using h p hp
  rw [this, Option.none_or]

theorem mapGet_cons_self {l : List (K × V)} {k : K} {v : V} :
    mapGet ((k, v) :: l) k = some v := by
  simp [mapGet, List.find?_cons_of_pos]

omit [DecidableEq K] in
theorem forall_ne_of_not_mem_keys {l : List (K × V)} {k : K}
    (h : k ∉ keysOf l) : ∀ p ∈ l, p.1 ≠ k := by
  intro p hp hpk
  exact h (hpk ▸ List.mem_map_of_mem Prod.fst hp)

theorem mapDelete_forall_ne {l : List (K × V)} {k : K} :
    ∀ p ∈ mapDelete l k, p.1 ≠ k := by
  intro p hp
  have := List.of_mem_filter hp
  simpa using this

theorem mapGet_isSome_of_mem {l : List (K × V)} {p : K × V} (hp : p ∈ l) :
    mapHas l p.1 = true := by
  rw [mapHas, Option.isSome_iff_ne_none]
  intro hnone
  exact (mapGet_eq_none_iff.mp hnone) p hp rfl

theorem mapGet_cons_of_ne {l : List (K × V)} {p : K × V} {k : K} (h : p.1 ≠ k) :
    mapGet (p :: l) k = mapGet l k := by
  unfold mapGet
  rw [List.find?_cons_of_neg]
  simpa using h

theorem mem_keys_of_mapGet_eq_some {l : List (K × V)} {k : K} {v : V}
    (h : mapGet l k = some v) : k ∈ keysOf l := by
  by_contra hk
  rw [mapGet_eq_none_iff.mpr (forall_ne_of_not_mem_keys hk)] at h
  exact Option.noConfusion h

theorem mapGet_snoc_self {l : List (K × V)} {k : K} {v : V}
    (h : ∀ p ∈ l, p.1 ≠ k) :
    mapGet (l ++ [(k, v)]) k = some v := by
  rw [mapGet_append_of_forall_ne h, mapGet_cons_self]

theorem mapDelete_sublist (l : List (K × V)) (k : K) : (mapDelete l k).Sublist l :=
  List.filter_sublist l

theorem mapDelete_eq_self_of_not_mem {l : List (K × V)} {k : K}
    (h : ∀ p ∈ l, p.1 ≠ k) : mapDelete l k = l := by
  unfold mapDelete
  rw [List.filter_eq_self]
  intro p hp
  simpa using h p hp

theorem mapDelete_length_of_nodup {l : List (K × V)} {k : K}
    (hnd : (keysOf l).Nodup) (h : mapHas l k = true) :
    (mapDelete l k).length + 1 = l.length := by
  induction l with
  | nil => simp [mapHas, mapGet] at h
  | cons p t ih =>
    have hnd' : p.1 ∉ List.map Prod.fst t ∧ (List.map Prod.fst t).Nodup := by
      rw [keysOf, List.map_cons, List.nodup_cons] at hnd
      exact hnd
    by_cases hp : p.1 = k
    · have hkeys : ∀ q ∈ t, q.1 ≠ k := by
        intro q hq hqk
        apply hnd'.1
        rw [hp, ← hqk]
        exact List.mem_map_of_mem Prod.fst hq
      have hdel : mapDelete (p :: t) k = t := by
        have ht := mapDelete_eq_self_of_not_mem hkeys
        unfold mapDelete at ht ⊢
        rw [List.filter_cons_of_neg (by simpa using hp)]
        exact ht
      rw [hdel]
      simp
    · have hhas : mapHas t k = true := by
        rw [mapHas, ← mapGet_cons_of_ne (l := t) (p := p) hp]
        exact h
      have hrec := ih (by rw [keysOf]; exact hnd'.2) hhas
      have hstep : mapDelete (p :: t) k = p :: mapDelete t k := by
        unfold mapDelete
        rw [List.filter_cons_of_pos (by simpa using hp)]
      rw [hstep]
      simp only [List.length_cons]
      omega

omit [DecidableEq K] in
theorem nodup_snoc {xs : List K} {k : K} (h : xs.Nodup) (hk : k ∉ xs) :
    (xs ++ [k]).Nodup := by
  rw [List.nodup_append]
  refine ⟨h, List.nodup_singleton k, ?_⟩
  intro a ha hb
  rw [List.mem_singleton] at hb
  exact hk (hb ▸ ha)

omit [DecidableEq K] in
theorem keysOf_append {l₁ l₂ : List (K × V)} :
    keysOf (l₁ ++ l₂) = keysOf l₁ ++ keysOf l₂ := by
  simp [keysOf]

theorem mapDelete_length_lt {l : List (K × V)} {k : K} (h : mapHas l k = true) :
    (mapDelete l k).length < l.length := by
  rcases Option.isSome_iff_exists.mp h with ⟨v, hv⟩
  unfold mapGet at hv
  rcases Option.map_eq_some'.mp hv with ⟨p, hfind, -⟩
  refine List.length_filter_lt_length_iff_exists.mpr ⟨p, List.mem_of_find?_eq_some hfind, ?_⟩
  have := List.find?_some hfind
  simp only [decide_eq_true_eq] at this
  simp [this]

end MapLemmas

section LRULemmas

variable {K V : Type} [DecidableEq K]

/-- The shape of a `put`: the new pair always lands at the end, after a
prefix that no longer contains the key, and capacity and eviction never
change that. -/
theorem LRUCache.put_snoc (s : LRUCache K V) (k : K) (v : V) :
    ∃ X : List (K × V), (s.put k v).cache = X ++ [(k, v)] ∧ (∀ p ∈ X, p.1 ≠ k) ∧
      (s.put k v).capacity = s.capacity ∧ X.Sublist s.cache := by
  obtain ⟨cap, cache, fb⟩ := s
  by_cases h1 : mapHas cache k = true
  · exact ⟨mapDelete cache k, by simp [LRUCache.put, h1], mapDelete_forall_ne,
      by simp [LRUCache.put, h1], mapDelete_sublist cache k⟩
  · have hforall : ∀ p ∈ cache, p.1 ≠ k :=
      mapHas_false_iff.mp (by simpa using h1)
    by_cases h2 : cap ≤ cache.length
    · cases cache with
      | nil => exact ⟨[], by simp [LRUCache.put, h1], by simp, by simp [LRUCache.put, h1], by simp⟩
      | cons p rest =>
        obtain ⟨pk, pv⟩ := p
        simp only [List.length_cons] at h2
        refine ⟨rest, ?_, ?_, ?_, List.sublist_cons_self _ rest⟩
        · simp [LRUCache.put, h1, h2]
        · exact fun q hq => hforall q (List.mem_cons_of_mem _ hq)
        · simp [LRUCache.put, h1, h2]
    · exact ⟨cache, by simp [LRUCache.put, h1, h2], hforall,
        by simp [LRUCache.put, h1, h2], List.Sublist.refl cache⟩

theorem LRUCache.put_cache_get (s : LRUCache K V) (k : K) (v : V) :
    mapGet (s.put k v).cache k = some v := by
  obtain ⟨X, hX, hne, -, -⟩ := s.put_snoc k v
  rw [hX]
  exact mapGet_snoc_self hne

/-- A hit on `get` promotes the key to the end of the order. -/
theorem LRUCache.get_hit (s : LRUCache K V) (k : K) (v : V)
    (h : mapGet s.cache k = some v) :
    s.get k = (some v, { s with cache := mapDelete s.cache k ++ [(k, v)] }) := by
  unfold LRUCache.get
  rw [h]

/-- A miss on both the in-memory map and the fallback store leaves the
state untouched. -/
theorem LRUCache.get_miss (s : LRUCache K V) (k : K)
    (hmem : mapGet s.cache k = none) (hfb : s.fallbackClient.get k = none) :
    s.get k = (none, s) := by
  unfold LRUCache.get
  rw [hmem, hfb]

theorem LRUCache.put_length_le (s : LRUCache K V) (k : K) (v : V)
    (hcap : 0 < s.capacity) (hlen : s.cache.length ≤ s.capacity) :
    (s.put k v).cache.length ≤ s.capacity := by
  obtain ⟨cap, cache, fb⟩ := s
  simp only at hcap hlen ⊢
  by_cases h1 : mapHas cache k = true
  · have hlt := mapDelete_length_lt (l := cache) (k := k) h1
    simp only [LRUCache.put, h1, if_true, List.length_append, List.length_singleton]
    omega
  · by_cases h2 : cap ≤ cache.length
    · cases cache with
      | nil =>
        simp only [List.length_nil] at h2
        simp [LRUCache.put, h1]
        omega
      | cons p rest =>
        obtain ⟨pk, pv⟩ := p
        simp only [List.length_cons] at hlen h2
        simp [LRUCache.put, h1, h2]
        omega
    · simp [LRUCache.put, h1, h2]
      omega

theorem LRUCache.put_nodup (s : LRUCache K V) (k : K) (v : V)
    (hnd : (keysOf s.cache).Nodup) :
    (keysOf (s.put k v).cache).Nodup := by
  obtain ⟨X, hX, hne, -, hsub⟩ := s.put_snoc k v
  rw [hX, keysOf_append]
  have hXnd : (keysOf X).Nodup := hnd.sublist (hsub.map Prod.fst)
  have hk : k ∉ keysOf X := by
    intro hk
    rcases List.mem_map.mp hk with ⟨p, hp, hpk⟩
    exact hne p hp hpk
  simpa [keysOf] using nodup_snoc hXnd hk

theorem LRUCache.put_capacity (s : LRUCache K V) (k : K) (v : V) :
    (s.put k v).capacity = s.capacity := by
  obtain ⟨X, hX, hne, h, hsub⟩ := s.put_snoc k v
  exact h

/-- When the key is absent and the cache is at capacity, `put` evicts the
head of the insertion order, writes it to the fallback client, and appends
the new pair. -/
theorem LRUCache.put_evict (s : LRUCache K V) (k : K) (v : V) (k0 : K) (v0 : V)
    (rest : List (K × V))
    (hc : s.cache = (k0, v0) :: rest)
    (h1 : mapHas s.cache k = false)
    (h2 : s.capacity ≤ s.cache.length) :
    s.put k v = { s with cache := rest ++ [(k, v)],
                         fallbackClient := s.fallbackClient.put k0 v0 } := by
  obtain ⟨cap, cache, fb⟩ := s
  simp only at hc h1 h2 ⊢
  subst hc
  simp only [List.length_cons] at h2
  simp [LRUCache.put, h1, h2]

theorem applyPuts_cons (s : LRUCache K V) (op : K × V) (t : List (K × V)) :
    applyPuts s (op :: t) = applyPuts (s.put op.1 op.2) t := rfl

theorem applyPuts_invariant (ops : List (K × V)) (s : LRUCache K V)
    (hcap : 0 < s.capacity) (hlen : s.cache.length ≤ s.capacity)
    (hnd : (keysOf s.cache).Nodup) :
    (applyPuts s ops).cache.length ≤ s.capacity ∧
    (keysOf (applyPuts s ops).cache).Nodup := by
  induction ops generalizing s with
  | nil => exact ⟨hlen, hnd⟩
  | cons op t ih =>
    have hcap' : 0 < (s.put op.1 op.2).capacity := by
      rw [s.put_capacity]; exact hcap
    have hlen' : (s.put op.1 op.2).cache.length ≤ (s.put op.1 op.2).capacity := by
      rw [s.put_capacity]; exact s.put_length_le op.1 op.2 hcap hlen
    have hnd' := s.put_nodup op.1 op.2 hnd
    have h := ih (s.put op.1 op.2) hcap' hlen' hnd'
    rw [applyPuts_cons]
    rw [s.put_capacity op.1 op.2] at h
    exact h

end LRULemmas

section ClaimsCache

variable {K V : Type} [DecidableEq K]

/-- C1: for every capacity N > 0 and every finite sequence of put(key,
value) operations executed sequentially on an LRUCache constructed with
that capacity, after the sequence completes size() ≤ N holds and the
in-memory map contains no duplicate keys. -/
theorem c1_put_sequence_size_le_and_nodup (N : Nat)
    (fb : MongoCacheFallbackClient K V) (ops : List (K × V)) (hN : 0 < N) :
    (applyPuts ⟨N, [], fb⟩ ops).size ≤ N ∧
    (keysOf (applyPuts ⟨N, [], fb⟩ ops).cache).Nodup := by
  have h := applyPuts_invariant ops ⟨N, [], fb⟩ hN (by simp) (by simp [keysOf])
  exact h

theorem c1_witness :
    ((0 : Nat) < 2 ∧
      (applyPuts (⟨2, [], ⟨0, []⟩⟩ : LRUCache Nat Nat)
          [(1, 10), (2, 20), (1, 11), (3, 30)]).size ≤ 2 ∧
      (keysOf (applyPuts (⟨2, [], ⟨0, []⟩⟩ : LRUCache Nat Nat)
          [(1, 10), (2, 20), (1, 11), (3, 30)]).cache).Nodup) :=
  ⟨by decide,
    c1_put_sequence_size_le_and_nodup 2 ⟨0, []⟩ [(1, 10), (2, 20), (1, 11), (3, 30)]
      (by decide)⟩

/-- C5: for every key k and value v, put(k, v) followed immediately by
get(k) with no intervening operations returns v. -/
theorem c5_put_then_get_returns (s : LRUCache K V) (k : K) (v : V) :
    ((s.put k v).get k).1 = some v := by
  have h := s.put_cache_get k v
  unfold LRUCache.get
  rw [h]

/-- C2: on a capacity-2 cache with a disconnected fallback store, the
sequence put(a,1), put(b,2), get(a), put(c,3) returns 1 for the get and
evicts exactly b, leaving the in-memory cache holding exactly a:1, c:3;
and in general, a get on a present key promotes it to most recently used,
so a subsequent eviction at full capacity removes the least recently
touched entry, never the promoted key, which stays present with its value
while the cache size is unchanged by the evicting insert. -/
theorem c2_get_promotes_and_evicts_lru (s : LRUCache K V) (key fresh : K)
    (v w : V)
    (hnd : (keysOf s.cache).Nodup)
    (hget : mapGet s.cache key = some v)
    (hlen : 2 ≤ s.cache.length)
    (hfresh : mapHas s.cache fresh = false)
    (hfull : s.capacity ≤ s.cache.length) :
    ((((((⟨2, [], ⟨0, []⟩⟩ : LRUCache String Nat).put "a" 1).put "b" 2).get
          "a").2.put "c" 3).cache = [("a", 1), ("c", 3)]
      ∧ ((((⟨2, [], ⟨0, []⟩⟩ : LRUCache String Nat).put "a" 1).put "b" 2).get
          "a").1 = some 1
      ∧ mapHas (((((⟨2, [], ⟨0, []⟩⟩ : LRUCache String Nat).put "a" 1).put
          "b" 2).get "a").2.put "c" 3).cache "b" = false)
    ∧ mapGet (((s.get key).2).put fresh w).cache key = some v
    ∧ mapHas (((s.get key).2).put fresh w).cache fresh = true
    ∧ (((s.get key).2).put fresh w).cache.length = s.cache.length := by
  refine ⟨⟨by decide, by decide, by decide⟩, ?_⟩
  have hhas : mapHas s.cache key = true := by rw [mapHas, hget]; rfl
  have hgit := s.get_hit key v hget
  have hlenA : (mapDelete s.cache key).length + 1 = s.cache.length :=
    mapDelete_length_of_nodup hnd hhas
  have hfreshall : ∀ p ∈ s.cache, p.1 ≠ fresh := mapHas_false_iff.mp hfresh
  have hmemA : ∀ p ∈ mapDelete s.cache key, p ∈ s.cache :=
    fun p hp => (mapDelete_sublist s.cache key).subset hp
  have hkeyne : key ≠ fresh := by
    rcases List.mem_map.mp (mem_keys_of_mapGet_eq_some hget) with ⟨p, hp, hpk⟩
    exact hpk ▸ hfreshall p hp
  cases hA : mapDelete s.cache key with
  | nil =>
    exfalso
    rw [hA] at hlenA
    simp only [List.length_nil, Nat.zero_add] at hlenA
    omega
  | cons a0 tailA =>
    obtain ⟨a0k, a0v⟩ := a0
    have hc' : ({ s with cache := mapDelete s.cache key ++ [(key, v)] }
        : LRUCache K V).cache = (a0k, a0v) :: (tailA ++ [(key, v)]) := by
      simp [hA]
    have h1' : mapHas ({ s with cache := mapDelete s.cache key ++ [(key, v)] }
        : LRUCache K V).cache fresh = false := by
      apply mapHas_false_iff.mpr
      intro p hp
      rcases List.mem_append.mp hp with hpl | hpr
      · exact hfreshall p (hmemA p hpl)
      · rw [List.mem_singleton] at hpr
        rw [hpr]
        exact hkeyne
    have h2' : ({ s with cache := mapDelete s.cache key ++ [(key, v)] }
        : LRUCache K V).capacity ≤
        ({ s with cache := mapDelete s.cache key ++ [(key, v)] }
        : LRUCache K V).cache.length := by
      simp only [List.length_append, List.length_singleton]
      omega
    have hput := LRUCache.put_evict _ fresh w a0k a0v (tailA ++ [(key, v)])
      hc' h1' h2'
    have htailA : ∀ p ∈ tailA, p.1 ≠ key := by
      intro p hp
      exact mapDelete_forall_ne p (by rw [hA]; exact List.mem_cons_of_mem _ hp)
    rw [hgit]
    rw [hput]
    refine ⟨?_, ?_, ?_⟩
    · show mapGet ((tailA ++ [(key, v)]) ++ [(fresh, w)]) key = some v
      rw [List.append_assoc]
      rw [mapGet_append_of_forall_ne htailA]
      exact mapGet_cons_self
    · show mapHas ((tailA ++ [(key, v)]) ++ [(fresh, w)]) fresh = true
      exact mapGet_isSome_of_mem (p := (fresh, w))
        (List.mem_append.mpr (Or.inr (List.mem_singleton.mpr rfl)))
    · show ((tailA ++ [(key, v)]) ++ [(fresh, w)]).length = s.cache.length
      rw [hA] at hlenA
      simp only [List.length_append, List.length_singleton, List.length_cons,
        List.length_nil] at hlenA ⊢
      omega

theorem c2_witness :
    ((((((⟨2, [], ⟨0, []⟩⟩ : LRUCache String Nat).put "a" 1).put "b" 2).get
          "a").2.put "c" 3).cache = [("a", 1), ("c", 3)]
      ∧ ((((⟨2, [], ⟨0, []⟩⟩ : LRUCache String Nat).put "a" 1).put "b" 2).get
          "a").1 = some 1
      ∧ mapHas (((((⟨2, [], ⟨0, []⟩⟩ : LRUCache String Nat).put "a" 1).put
          "b" 2).get "a").2.put "c" 3).cache "b" = false)
    ∧ mapGet ((((⟨2, [("x", 5), ("y", 6)], ⟨0, []⟩⟩ : LRUCache String Nat).get
        "x").2).put "z" 7).cache "x" = some 5
    ∧ mapHas ((((⟨2, [("x", 5), ("y", 6)], ⟨0, []⟩⟩ : LRUCache String Nat).get
        "x").2).put "z" 7).cache "z" = true
    ∧ ((((⟨2, [("x", 5), ("y", 6)], ⟨0, []⟩⟩ : LRUCache String Nat).get
        "x").2).put "z" 7).cache.length =
        (⟨2, [("x", 5), ("y", 6)], ⟨0, []⟩⟩ : LRUCache String Nat).cache.length :=
  c2_get_promotes_and_evicts_lru ⟨2, [("x", 5), ("y", 6)], ⟨0, []⟩⟩ "x" "z" 5 7
    (by decide) (by decide) (by decide) (by decide) (by decide)

/-- C9: if the fallback store is disconnected (state ≠ 1), get on a key
absent from memory returns not-found without any state change (nothing
throws: every operation returns normally), and a put that triggers
eviction completes it: the LRU entry is removed from memory, the new entry
is inserted, and the fallback store is left untouched. -/
theorem c9_disconnected_fallback_safe (s : LRUCache K V) (key : K) (v : V)
    (k0 : K) (v0 : V) (rest : List (K × V))
    (hdisc : s.fallbackClient.state ≠ 1)
    (habs : mapGet s.cache key = none)
    (hc : s.cache = (k0, v0) :: rest)
    (hfull : s.capacity ≤ s.cache.length)
    (hnd : (keysOf s.cache).Nodup) :
    s.get key = (none, s) ∧
    (s.put key v).cache = rest ++ [(key, v)] ∧
    (s.put key v).fallbackClient = s.fallbackClient ∧
    mapHas (s.put key v).cache k0 = false ∧
    mapGet (s.put key v).cache key = some v := by
  have hfb : s.fallbackClient.get key = none := by
    unfold MongoCacheFallbackClient.get
    simp [hdisc]
  have h1 : mapHas s.cache key = false := by rw [mapHas, habs]; rfl
  have hput := s.put_evict key v k0 v0 rest hc h1 hfull
  have hfbput : s.fallbackClient.put k0 v0 = s.fallbackClient := by
    unfold MongoCacheFallbackClient.put
    simp [hdisc]
  have hrestne : ∀ p ∈ rest, p.1 ≠ key := by
    intro p hp
    exact mapGet_eq_none_iff.mp habs p (by rw [hc]; exact List.mem_cons_of_mem _ hp)
  have hk0key : k0 ≠ key :=
    mapGet_eq_none_iff.mp habs (k0, v0) (by rw [hc]; exact List.mem_cons_self _ _)
  refine ⟨s.get_miss key habs hfb, ?_, ?_, ?_, ?_⟩
  · rw [hput]
  · rw [hput]
    exact hfbput
  · rw [hput]
    apply mapHas_false_iff.mpr
    intro p hp
    rcases List.mem_append.mp hp with hpl | hpr
    · have hk0 : k0 ∉ keysOf rest := by
        rw [hc, keysOf, List.map_cons, List.nodup_cons] at hnd
        exact hnd.1
      intro hpk
      exact hk0 (hpk ▸ List.mem_map_of_mem Prod.fst hpl)
    · rw [List.mem_singleton] at hpr
      rw [hpr]
      intro hkey
      exact hk0key hkey.symm
  · rw [hput]
    exact mapGet_snoc_self hrestne

/-- `getFromCacheOrFetch` (src/utils.ts lines 126-142, the cache-aside
resolve helper): look in the cache first and return a hit immediately;
on a miss, await `fetchFn` — a rejection propagates to the caller before
anything is cached — and on success store the fetched value via `put` and
return it.  The awaited promise outcome of `fetchFn` is modelled as an
`Except`; the third component of the result counts how many times
`fetchFn` was invoked during the call. -/
def getFromCacheOrFetch {K V E : Type} [DecidableEq K] (s : LRUCache K V)
    (key : K) (fetchFn : Except E V) : Except E V × LRUCache K V × Nat :=
  match s.get key with
  | (some cachedValue, s') => (Except.ok cachedValue, s', 0)
  | (none, s') =>
    match fetchFn with
    | Except.error e => (Except.error e, s', 1)
    | Except.ok fetchedValue =>
      (Except.ok fetchedValue, s'.put key fetchedValue, 1)

/-- C4: for a key absent from both the in-memory cache and the fallback
store, a first getFromCacheOrFetch call that succeeds populates the cache,
so a second sequential call is a cache hit returning the same value with
zero further invocations of the fetch function — one invocation in
total. -/
theorem c4_sequential_resolve_fetches_once {K V E : Type} [DecidableEq K]
    (s : LRUCache K V) (k : K) (v : V) (f2 : Except E V)
    (hmem : mapGet s.cache k = none)
    (hfb : s.fallbackClient.get k = none) :
    (getFromCacheOrFetch s k ((Except.ok v : Except E V))).1 = Except.ok v ∧
    (getFromCacheOrFetch s k ((Except.ok v : Except E V))).2.2 = 1 ∧
    (getFromCacheOrFetch (getFromCacheOrFetch s k ((Except.ok v : Except E V))).2.1 k f2).1 =
      Except.ok v ∧
    (getFromCacheOrFetch (getFromCacheOrFetch s k ((Except.ok v : Except E V))).2.1 k f2).2.2 = 0 := by
  have hmiss := s.get_miss k hmem hfb
  have hfirst : getFromCacheOrFetch s k ((Except.ok v : Except E V)) =
      (Except.ok v, s.put k v, 1) := by
    unfold getFromCacheOrFetch
    rw [hmiss]
  rw [hfirst]
  have hsecond := (s.put k v).get_hit k v (s.put_cache_get k v)
  have h2 : getFromCacheOrFetch (s.put k v) k f2 =
      (Except.ok v,
        { s.put k v with cache := mapDelete (s.put k v).cache k ++ [(k, v)] },
        0) := by
    unfold getFromCacheOrFetch
    rw [hsecond]
  exact ⟨rfl, rfl, by rw [h2], by rw [h2]⟩

theorem c4_witness :
    (getFromCacheOrFetch (⟨2, [], ⟨0, []⟩⟩ : LRUCache Nat Nat) 1
        ((Except.ok 42 : Except String Nat))).1 = Except.ok 42 ∧
    (getFromCacheOrFetch (⟨2, [], ⟨0, []⟩⟩ : LRUCache Nat Nat) 1
        ((Except.ok 42 : Except String Nat))).2.2 = 1 ∧
    (getFromCacheOrFetch (getFromCacheOrFetch (⟨2, [], ⟨0, []⟩⟩ : LRUCache Nat Nat) 1
        ((Except.ok 42 : Except String Nat))).2.1 1 (Except.error "down")).1 = Except.ok 42 ∧
    (getFromCacheOrFetch (getFromCacheOrFetch (⟨2, [], ⟨0, []⟩⟩ : LRUCache Nat Nat) 1
        ((Except.ok 42 : Except String Nat))).2.1 1 (Except.error "down")).2.2 = 0 :=
  c4_sequential_resolve_fetches_once ⟨2, [], ⟨0, []⟩⟩ 1 42 (Except.error "down")
    (by decide) (by decide)

/-- C6: for a key absent from both the in-memory cache and the fallback
store, a failing fetch propagates its failure to the caller, the cache
state is unchanged, and a subsequent lookup of the key still misses. -/
theorem c6_failed_fetch_not_cached {K V E : Type} [DecidableEq K]
    (s : LRUCache K V) (k : K) (e : E)
    (hmem : mapGet s.cache k = none)
    (hfb : s.fallbackClient.get k = none) :
    (getFromCacheOrFetch s k (Except.error e)).1 = Except.error e ∧
    (getFromCacheOrFetch s k (Except.error e)).2.1 = s ∧
    ((getFromCacheOrFetch s k (Except.error e)).2.1.get k).1 = none := by
  have hmiss := s.get_miss k hmem hfb
  have hrun : getFromCacheOrFetch s k (Except.error e) =
      (Except.error e, s, 1) := by
    unfold getFromCacheOrFetch
    rw [hmiss]
  refine ⟨by rw [hrun], by rw [hrun], ?_⟩
  rw [hrun]
  show (s.get k).1 = none
  rw [hmiss]

theorem c6_witness :
    (getFromCacheOrFetch (⟨2, [(7, 1)], ⟨0, []⟩⟩ : LRUCache Nat Nat) 3
        (Except.error "boom")).1 = Except.error "boom" ∧
    (getFromCacheOrFetch (⟨2, [(7, 1)], ⟨0, []⟩⟩ : LRUCache Nat Nat) 3
        (Except.error "boom")).2.1 = (⟨2, [(7, 1)], ⟨0, []⟩⟩ : LRUCache Nat Nat) ∧
    ((getFromCacheOrFetch (⟨2, [(7, 1)], ⟨0, []⟩⟩ : LRUCache Nat Nat) 3
        (Except.error "boom")).2.1.get 3).1 = none :=
  c6_failed_fetch_not_cached ⟨2, [(7, 1)], ⟨0, []⟩⟩ 3 "boom" (by decide) (by decide)

theorem c9_witness :
    (⟨1, [(0, 100)], ⟨0, []⟩⟩ : LRUCache Nat Nat).get 5 =
        (none, (⟨1, [(0, 100)], ⟨0, []⟩⟩ : LRUCache Nat Nat)) ∧
    ((⟨1, [(0, 100)], ⟨0, []⟩⟩ : LRUCache Nat Nat).put 5 7).cache = [] ++ [(5, 7)] ∧
    ((⟨1, [(0, 100)], ⟨0, []⟩⟩ : LRUCache Nat Nat).put 5 7).fallbackClient =
        (⟨1, [(0, 100)], ⟨0, []⟩⟩ : LRUCache Nat Nat).fallbackClient ∧
    mapHas ((⟨1, [(0, 100)], ⟨0, []⟩⟩ : LRUCache Nat Nat).put 5 7).cache 0 = false ∧
    mapGet ((⟨1, [(0, 100)], ⟨0, []⟩⟩ : LRUCache Nat Nat).put 5 7).cache 5 = some 7 :=
  c9_disconnected_fallback_safe ⟨1, [(0, 100)], ⟨0, []⟩⟩ 5 7 0 100 []
    (by decide) (by decide) (by decide) (by decide) (by decide)

end ClaimsCache

section Singleflight

/-- Where a single logical `getFromCacheOrFetch` call stands between the
`await` suspension points of src/utils.ts: `checking` is before the
`await cache.get(key)` completes, `fetching` is between that miss and the
completion of `await fetchFn()` together with the `await cache.put(...)`
that follows it on success, and `finished` is after the return. -/
inductive FetchPhase where
  | checking : FetchPhase
  | fetching : FetchPhase
  | finished : FetchPhase
deriving DecidableEq

/-- Several logical `getFromCacheOrFetch` calls for the same key in
flight over the one shared cache: per-caller phase and result, the shared
cache, and the total number of `fetchFn` invocations so far. -/
structure ResolveRace (K V : Type) where
  cache : LRUCache K V
  phases : List FetchPhase
  results : List (Option V)
  fetchCalls : Nat

/-- One scheduler step of caller `i`, following the code of
`getFromCacheOrFetch`: a caller at `checking` runs `cache.get(key)` — on a
hit it returns that value, on a miss it proceeds to fetch; a caller at
`fetching` invokes `fetchFn` (counted), stores the fetched value with
`cache.put` and returns it.  There is no per-key in-flight marker in the
source, so nothing a caller does here consults what other callers are
doing. -/
def stepResolve {K V : Type} [DecidableEq K] (key : K) (fetched : V)
    (sys : ResolveRace K V) (i : Nat) : ResolveRace K V :=
  match sys.phases.get? i with
  | none => sys
  | some FetchPhase.checking =>
    match sys.cache.get key with
    | (some v, c') =>
      { sys with cache := c', phases := sys.phases.set i FetchPhase.finished,
                 results := sys.results.set i (some v) }
    | (none, c') =>
      { sys with cache := c', phases := sys.phases.set i FetchPhase.fetching }
  | some FetchPhase.fetching =>
    { sys with cache := sys.cache.put key fetched,
               phases := sys.phases.set i FetchPhase.finished,
               results := sys.results.set i (some fetched),
               fetchCalls := sys.fetchCalls + 1 }
  | some FetchPhase.finished => sys

/-- Run a schedule: at each step the named caller advances one phase. -/
def runResolve {K V : Type} [DecidableEq K] (key : K) (fetched : V)
    (init : ResolveRace K V) (sched : List Nat) : ResolveRace K V :=
  sched.foldl (stepResolve key fetched) init

/-- Two concurrent callers of `getFromCacheOrFetch` for the same uncached
key, neither yet started, over an empty cache with a disconnected fallback
store. -/
def twoCallersInit : ResolveRace Nat Nat :=
  { cache := ⟨2, [], ⟨0, []⟩⟩,
    phases := [FetchPhase.checking, FetchPhase.checking],
    results := [none, none],
    fetchCalls := 0 }

/-- C3 (refuted on the code): `getFromCacheOrFetch` keeps no per-key
in-flight marker, so under the interleaving in which both callers pass
their cache check before either fetch completes, `fetchFn` is invoked
twice for the one uncached key — not exactly once as the claim requires
(the callers do both receive the fetched value). -/
theorem c3_no_singleflight_two_fetches :
    (runResolve 0 42 twoCallersInit [0, 1, 0, 1]).fetchCalls = 2 ∧
    (runResolve 0 42 twoCallersInit [0, 1, 0, 1]).results =
      [some 42, some 42] := by
  constructor <;> rfl

end Singleflight

section DispatchModel

/-- JSON values, as produced by a successful `JSON.parse` of an inbound
text frame. -/
inductive Json where
  | null : Json
  | bool : Bool → Json
  | num : Int → Json
  | str : String → Json
  | arr : List Json → Json
  | obj : List (String × Json) → Json

/-- JS property access `o.field` on a parsed JSON value: a field lookup on
an object, `undefined` (`none`) on any other non-null value (primitives
box, arrays have no such fields here). -/
def jGet (j : Json) (field : String) : Option Json :=
  match j with
  | Json.obj fields => (fields.find? (fun p => decide (p.1 = field))).map Prod.snd
  | _ => none

/-- JS truthiness of a JSON value: null, false, 0 and the empty string are
falsy. -/
def jsTruthy : Json → Bool
  | Json.null => false
  | Json.bool b => b
  | Json.num n => decide (n ≠ 0)
  | Json.str s => decide (s ≠ "")
  | Json.arr _ => true
  | Json.obj _ => true

/-- JS truthiness of a possibly-undefined value. -/
def jsTruthyOpt : Option Json → Bool
  | none => false
  | some j => jsTruthy j

/-- JS string coercion as it appears in template literals of error
messages (coarse for arrays, exact for the primitives the dispatcher
actually interpolates). -/
def jsDisplay : Option Json → String
  | none => "undefined"
  | some Json.null => "null"
  | some (Json.bool true) => "true"
  | some (Json.bool false) => "false"
  | some (Json.num n) => toString n
  | some (Json.str s) => s
  | some (Json.arr _) => ""
  | some (Json.obj _) => "[object Object]"

/-- Status constants of src/websocket.ts lines 11-18 (source spelling of
the 200 constant preserved). -/
def REQUEST_SUCCUESS : Nat := 200

def REQUEST_FAILED : Nat := 400

def NOT_ALLOWED : Nat := 500

def REQUEST_TIMEOUT : Nat := 408

def REQUEST_CANCELED : Nat := 499

def REQUEST_INTERNAL_ERROR : Nat := 503

def NOT_FOUND : Nat := 404

def REQUEST_RATE_LIMITED : Nat := 429

/-- The `Outcome` enumeration of src/websocket.ts lines 242-250. -/
inductive Outcome where
  | Failure : Outcome
  | NotAllowed : Outcome
  | Timeout : Outcome
  | Canceled : Outcome
  | InternalError : Outcome
  | NotFound : Outcome
  | RateLimited : Outcome
deriving DecidableEq

/-- The `message` field of a ServerResponse: absent, a string, a JSON
payload, or — because `respond` wraps the response built by `handle` in
`WebSocketServer.success` — another response given by its status, message
and reason. -/
inductive RespMsg where
  | undef : RespMsg
  | text : String → RespMsg
  | json : Json → RespMsg
  | nested : Nat → RespMsg → Option String → RespMsg

/-- `ServerResponse` (src/websocket.ts lines 252-266). -/
structure ServerResponse where
  status : Nat
  message : RespMsg
  reason : Option String

/-- A ServerResponse used as the `message` of another one. -/
def ServerResponse.toMsg (r : ServerResponse) : RespMsg :=
  RespMsg.nested r.status r.message r.reason

/-- `WebSocketServer.success` (src/websocket.ts lines 221-223). -/
def WebSocketServer.success (message : RespMsg) : ServerResponse :=
  ⟨REQUEST_SUCCUESS, message, none⟩

/-- `WebSocketServer.error` (src/websocket.ts lines 225-239): the switch
mapping outcomes to status codes (its default arm yields
REQUEST_FAILED). -/
def WebSocketServer.error (outcome : Outcome) (message : RespMsg)
    (reason : Option String) : ServerResponse :=
  let status :=
    match outcome with
    | Outcome.Failure => REQUEST_FAILED
    | Outcome.NotAllowed => NOT_ALLOWED
    | Outcome.Timeout => REQUEST_TIMEOUT
    | Outcome.Canceled => REQUEST_CANCELED
    | Outcome.InternalError => REQUEST_INTERNAL_ERROR
    | Outcome.NotFound => NOT_FOUND
    | Outcome.RateLimited => REQUEST_RATE_LIMITED
  ⟨status, message, reason⟩

/-- The `CallRequest` built by `parseToCallRequest` (src/params.ts): when
the wire `target` is "task" the whole wire `args` value is taken as the
TaskArgs and stored under `for_task`; when it is "database" it is stored
under `for_database`; any other target throws. -/
structure CallRequest where
  target : String
  for_task : Option Json
  for_database : Option Json

/-- `parseToCallRequest` (src/params.ts lines 73-99).  A thrown JS error
is modelled as `Except.error` carrying its message; property access on a
parsed `null` throws a TypeError before the target is even examined. -/
def parseToCallRequest (j : Json) : Except String CallRequest :=
  match j with
  | Json.null => Except.error "TypeError: cannot read properties of null"
  | _ =>
    match jGet j "target" with
    | some (Json.str t) =>
      if t = "task" then Except.ok ⟨"task", jGet j "args", none⟩
      else if t = "database" then Except.ok ⟨"database", none, jGet j "args"⟩
      else Except.error ("Invalid target: " ++ t)
    | t => Except.error ("Invalid target: " ++ jsDisplay t)

/-- The handler registry `functions` of the WebSocketServer together with
the awaited outcome of calling a handler: `none` — no handler registered
under that name; `some (Except.error m)` — the handler (its collaborator
fetch) threw an error whose message is `m`; `some (Except.ok j)` — the
handler resolved with payload `j`. -/
def HandlerMap : Type := String → Option (Except String Json)

/-- `WebSocketServer.mapFunc` (src/websocket.ts lines 217-219):
`functions.get(where_)`, which can only find a handler when the key is a
string registered in the map. -/
def mapFunc (functions : HandlerMap) (where_ : Option Json) :
    Option (Except String Json) :=
  match where_ with
  | some (Json.str w) => functions w
  | _ => none

/-- `WebSocketServer.handle` (src/websocket.ts lines 185-215).  The access
`args.look_for.where_` sits outside the try block, so when `look_for` is
undefined or null the TypeError escapes `handle` (modelled as
`Except.error`); a falsy `where_` or `params` yields a Failure response;
the try block converts an unregistered handler name or a throwing handler
into Failure with reason `err.message`; a successful handler result is
wrapped in a success response. -/
def WebSocketServer.handle (args : Json) (functions : HandlerMap) :
    Except String ServerResponse :=
  match jGet args "look_for" with
  | none => Except.error "TypeError: cannot read properties of undefined"
  | some Json.null => Except.error "TypeError: cannot read properties of null"
  | some lookFor =>
    let where_ := jGet lookFor "where_"
    if jsTruthyOpt where_ = false then
      Except.ok (WebSocketServer.error Outcome.Failure
        (RespMsg.text "The where_ field is required.") none)
    else
      let params := jGet args "params"
      if jsTruthyOpt params = false then
        Except.ok (WebSocketServer.error Outcome.Failure
          (RespMsg.text "The params field is required.") none)
      else
        match mapFunc functions where_ with
        | none =>
          Except.ok (WebSocketServer.error Outcome.Failure
            (RespMsg.text "Request failed.")
            (some ("No function found for " ++ jsDisplay where_)))
        | some (Except.error m) =>
          Except.ok (WebSocketServer.error Outcome.Failure
            (RespMsg.text "Request failed.") (some m))
        | some (Except.ok res) =>
          Except.ok (WebSocketServer.success (RespMsg.json res))

/-- The tail of `respond` after the target and function checks both pass:
`const res = await this.handle(taskArgs); return WebSocketServer.success(res)`
— the response built by `handle` is wrapped, whatever its own status, in a
fresh success response; a throw out of `handle` is caught by the
surrounding try and becomes a Failure response. -/
def dispatchTask (taskArgs : Json) (functions : HandlerMap) : ServerResponse :=
  match WebSocketServer.handle taskArgs functions with
  | Except.ok res => WebSocketServer.success (ServerResponse.toMsg res)
  | Except.error m =>
    WebSocketServer.error Outcome.Failure
      (RespMsg.text "Failed to make a response for the request.") (some m)

/-- `WebSocketServer.respond` (src/websocket.ts lines 145-183).  The input
is the outcome of `JSON.parse` on the inbound text frame (`none` — the
parse threw on malformed input; the throw is caught by the body's
try/catch like every other throw, so respond always returns exactly one
response).  Target other than "task" and a missing or wrong
`for_task.function` are rejected as NotAllowed; everything else is
delegated to `handle` through `dispatchTask`.  (The source's `if (!req)`
guard is dead code: the parser either returns an object or throws.) -/
def WebSocketServer.respond (input : Option Json) (functions : HandlerMap) :
    ServerResponse :=
  match input with
  | none =>
    WebSocketServer.error Outcome.Failure
      (RespMsg.text "Failed to make a response for the request.")
      (some "SyntaxError: unexpected token in JSON")
  | some j =>
    match parseToCallRequest j with
    | Except.error m =>
      WebSocketServer.error Outcome.Failure
        (RespMsg.text "Failed to make a response for the request.") (some m)
    | Except.ok req =>
      if req.target ≠ "task" then
        WebSocketServer.error Outcome.NotAllowed
          (RespMsg.text ("You are trying to perfoorm a task this socket does not support"
            ++ req.target)) none
      else
        match req.for_task with
        | none =>
          WebSocketServer.error Outcome.NotAllowed
            (RespMsg.text "This socket only supports the aggregated_polling function.")
            none
        | some ft =>
          if jsTruthy ft = false then
            WebSocketServer.error Outcome.NotAllowed
              (RespMsg.text "This socket only supports the aggregated_polling function.")
              none
          else
            match jGet ft "function" with
            | some (Json.str fn) =>
              if fn = "aggregated_polling" then dispatchTask ft functions
              else
                WebSocketServer.error Outcome.NotAllowed
                  (RespMsg.text "This socket only supports the aggregated_polling function.")
                  none
            | _ =>
              WebSocketServer.error Outcome.NotAllowed
                (RespMsg.text "This socket only supports the aggregated_polling function.")
                none

end DispatchModel

section ClaimsDispatch

/-- Caller metadata of the example messages (its content is irrelevant to
dispatch). -/
def callerObj : Json :=
  Json.obj [("id", Json.str "client-1"), ("ipaddr", Json.str "127.0.0.1"),
    ("queue", Json.num 0), ("status", Json.num 0), ("mode", Json.str "sync")]

/-- A well-formed TaskArgs object: supported function, a registered
handler name under look_for.where_, and non-empty params. -/
def flatWireArgs : Json :=
  Json.obj [
    ("function", Json.str "aggregated_polling"),
    ("count", Json.str "single"),
    ("look_for", Json.obj [("where_", Json.str "reddit_polling")]),
    ("params", Json.obj [("subreddits", Json.arr [Json.str "lean"])])]

/-- An inbound message in the wire format the spec documents: the TaskArgs
nested under `args.for_task`. -/
def documentedWireMessage : Json :=
  Json.obj [("caller", callerObj), ("target", Json.str "task"),
    ("args", Json.obj [("for_task", flatWireArgs)])]

/-- The same request in the shape the parser actually consumes: the wire
`args` value is the TaskArgs itself. -/
def flatWireMessage : Json :=
  Json.obj [("caller", callerObj), ("target", Json.str "task"),
    ("args", flatWireArgs)]

/-- A registry in which reddit_polling is registered and resolves. -/
def demoHandlers : HandlerMap :=
  fun w => if w = "reddit_polling" then some (Except.ok (Json.str "data")) else none

/-- A registry in which the reddit_polling handler's collaborator fetch
throws Error("boom"). -/
def throwingHandlers : HandlerMap :=
  fun w => if w = "reddit_polling" then some (Except.error "boom") else none

theorem dispatchTask_status (a : Json) (functions : HandlerMap) :
    (dispatchTask a functions).status = REQUEST_SUCCUESS ∨
    (dispatchTask a functions).status = REQUEST_FAILED := by
  unfold dispatchTask
  cases WebSocketServer.handle a functions with
  | ok res => left; rfl
  | error m => right; rfl

/-- C7 counterexample: an inbound message in the documented wire format —
target "task" and args.for_task.function = "aggregated_polling" — is
rejected with NotAllowed (status 500) instead of proceeding, because the
parser stores the whole wire `args` object as the TaskArgs, so the
function check reads `function` off the wrapper object and finds
nothing. -/
theorem c7_counterexample_documented_format_rejected :
    (WebSocketServer.respond (some documentedWireMessage) demoHandlers).status
      = NOT_ALLOWED := by
  rfl

/-- C7 (amended): for every inbound message with target "task" whose wire
`args` object itself carries function = "aggregated_polling" (the shape
the parser actually consumes — there is no for_task nesting on the wire),
the target check and the function check both pass, the request proceeds to
handler resolution (`dispatchTask`, which runs `handle`), and it is not
rejected with NotAllowed (status 500). -/
theorem c7_flat_task_args_dispatches (j : Json) (functions : HandlerMap)
    (a : Json)
    (htarget : jGet j "target" = some (Json.str "task"))
    (hargs : jGet j "args" = some a)
    (hfn : jGet a "function" = some (Json.str "aggregated_polling")) :
    WebSocketServer.respond (some j) functions = dispatchTask a functions ∧
    (WebSocketServer.respond (some j) functions).status ≠ NOT_ALLOWED := by
  obtain ⟨fields, rfl⟩ : ∃ fields, j = Json.obj fields := by
    cases j with
    | null => simp [jGet] at htarget
    | bool b => simp [jGet] at htarget
    | num n => simp [jGet] at htarget
    | str s => simp [jGet] at htarget
    | arr xs => simp [jGet] at htarget
    | obj fields => exact ⟨fields, rfl⟩
  obtain ⟨afields, rfl⟩ : ∃ afields, a = Json.obj afields := by
    cases a with
    | null => simp [jGet] at hfn
    | bool b => simp [jGet] at hfn
    | num n => simp [jGet] at hfn
    | str s => simp [jGet] at hfn
    | arr xs => simp [jGet] at hfn
    | obj afields => exact ⟨afields, rfl⟩
  have hparse : parseToCallRequest (Json.obj fields) =
      Except.ok ⟨"task", jGet (Json.obj fields) "args", none⟩ := by
    unfold parseToCallRequest
    rw [htarget]
    rfl
  have hresp : WebSocketServer.respond (some (Json.obj fields)) functions =
      dispatchTask (Json.obj afields) functions := by
    unfold WebSocketServer.respond
    dsimp only
    rw [hparse]
    dsimp only
    rw [hargs]
    dsimp only
    simp [jsTruthy, hfn]
  refine ⟨hresp, ?_⟩
  rw [hresp]
  rcases dispatchTask_status (Json.obj afields) functions with h | h <;>
    rw [h] <;> decide

theorem c7_witness :
    WebSocketServer.respond (some flatWireMessage) demoHandlers =
      dispatchTask flatWireArgs demoHandlers ∧
    (WebSocketServer.respond (some flatWireMessage) demoHandlers).status
      ≠ NOT_ALLOWED :=
  c7_flat_task_args_dispatches flatWireMessage demoHandlers flatWireArgs
    (by rfl) (by rfl) (by rfl)

/-- C8 (refuted on the code): for a valid task request whose resolved
handler's collaborator fetch throws Error("boom"), `handle` does build the
Failure response — status 400, message "Request failed.", reason the
sanitized error message "boom" and never the stack — but `respond` then
wraps that response in `WebSocketServer.success`, so the response the
client receives has top-level status 200 with the 400 response nested
inside its message field, not a top-level status of 400. -/
theorem c8_handler_throw_wrapped_in_success :
    WebSocketServer.respond (some flatWireMessage) throwingHandlers =
      ⟨REQUEST_SUCCUESS,
        RespMsg.nested REQUEST_FAILED (RespMsg.text "Request failed.")
          (some "boom"),
        none⟩ := by
  rfl

/-- C10: `respond` converts every inbound frame — malformed JSON (the
parse throw, `none` here), parsed null, an unrecognized target, a missing
where_ or params field, an unregistered handler name, a throwing handler —
into exactly one ServerResponse with an integer status field; it is a
total function whose status is always 200, 400 or 500, and no failure mode
escapes as an exception (every JS throw is modelled as an Except that the
try/catch of respond absorbs). -/
theorem c10_respond_always_status_coded (input : Option Json)
    (functions : HandlerMap) :
    (WebSocketServer.respond input functions).status = REQUEST_SUCCUESS ∨
    (WebSocketServer.respond input functions).status = REQUEST_FAILED ∨
    (WebSocketServer.respond input functions).status = NOT_ALLOWED := by
  cases input with
  | none => right; left; rfl
  | some j =>
    unfold WebSocketServer.respond
    repeat' split
    all_goals
      first
        | (right; left; rfl)
        | (right; right; rfl)
        | exact Or.imp id Or.inl (dispatchTask_status _ functions)

end ClaimsDispatch
